import Mathlib

/-!
Shallow embedding of the Obsidian plugin "frontmatter-to-html-attributes"
(source file `main.ts`, variant with reserved-name protection).

The plugin projects a document's YAML frontmatter onto `data-*` DOM
attributes of the view's container element.  We model:

* frontmatter values (`Value`), their JavaScript stringification
  (`jsString`, mirroring `String(value)`) and JSON serialization
  (`jsonStringify`, mirroring `JSON.stringify`);
* key sanitization (`sanitizeKey`, mirroring
  `key.replace(/[^a-zA-Z0-9\-]/g, "-").toLowerCase()`);
* the DOM attribute map of one element (`AttrMap`) with
  `setAttribute` / `removeAttribute`;
* the per-element state (`ElemState`: the element's attributes plus the
  plugin's `appliedAttributes` WeakMap entry for that element);
* `clearAttributes` and the core of `applyAttributes` acting on one
  element (`applyAttributesElem`);
* the whole-workspace state (`World`), leaves (`Leaf`), the full
  `applyAttributes(file, leaf)` entry point with its absent-argument
  guards, and the `handleMetadataChange` event handler.
-/

/-- A frontmatter value, as delivered by Obsidian's metadata cache:
string, number, boolean, null, undefined, array, or nested object.
Numbers are modelled as integers (the YAML frontmatter numbers relevant
to the spec's claims; their JS `String()` form is decimal). -/
inductive Value where
  | str (s : String)
  | num (n : Int)
  | bool (b : Bool)
  | null
  | undef
  | arr (elems : List Value)
  | obj (fields : List (String × Value))

/-- `typeof value === "object"` in JavaScript: true for `null`, arrays
and plain objects, false for strings, numbers, booleans and `undefined`. -/
def typeofIsObject : Value → Bool
  | .null => true
  | .arr _ => true
  | .obj _ => true
  | _ => false

/-- One character of a JSON string literal, escaped as
`JSON.stringify` escapes it. -/
def jsonEscapeChar (c : Char) : String :=
  if c = '"' then "\\\""
  else if c = '\\' then "\\\\"
  else if c = '\n' then "\\n"
  else if c = '\r' then "\\r"
  else if c = '\t' then "\\t"
  else if c.toNat = 8 then "\\b"
  else if c.toNat = 12 then "\\f"
  else if c.toNat < 32 then
    "\\u00" ++ String.singleton (Nat.digitChar (c.toNat / 16))
            ++ String.singleton (Nat.digitChar (c.toNat % 16))
  else String.singleton c

/-- A JSON string literal for `s`, double quotes included. -/
def jsonQuote (s : String) : String :=
  "\"" ++ String.join (s.data.map jsonEscapeChar) ++ "\""

mutual

/-- `JSON.stringify(value)`: `none` models the JavaScript call returning
`undefined` (which happens for a top-level `undefined`); inside arrays
such elements render as `null`, and object fields with such values are
dropped, as `JSON.stringify` does. -/
def jsonStringify : Value → Option String
  | .str s => some (jsonQuote s)
  | .num n => some (toString n)
  | .bool b => some (if b then "true" else "false")
  | .null => some "null"
  | .undef => none
  | .arr es => some ("[" ++ String.intercalate "," (jsonArrayParts es) ++ "]")
  | .obj fs => some ("\x7b" ++ String.intercalate "," (jsonObjectParts fs) ++ "\x7d")

/-- The serialized elements of a JSON array, in order. -/
def jsonArrayParts : List Value → List String
  | [] => []
  | v :: rest => (jsonStringify v).getD "null" :: jsonArrayParts rest

/-- The serialized `"key":value` members of a JSON object, in order,
skipping fields whose value does not serialize. -/
def jsonObjectParts : List (String × Value) → List String
  | [] => []
  | (k, v) :: rest =>
    match jsonStringify v with
    | none => jsonObjectParts rest
    | some s => (jsonQuote k ++ ":" ++ s) :: jsonObjectParts rest

end

/-- `processedValue` as computed in `applyAttributes`: for the values with
`typeof value === "object"` (null, arrays, objects) it is
`JSON.stringify(value)` — always an actual string there, so the
`getD "undefined"` default is dead code — and for everything else it is
`String(value)` (`"travel"`, `27` → `"27"`, `true` → `"true"`,
`undefined` → `"undefined"`). -/
def serializeValue : Value → String
  | .null => (jsonStringify .null).getD "undefined"
  | .arr es => (jsonStringify (.arr es)).getD "undefined"
  | .obj fs => (jsonStringify (.obj fs)).getD "undefined"
  | .str s => s
  | .num n => toString n
  | .bool b => if b then "true" else "false"
  | .undef => "undefined"

/-- Does `c` match the regex character class `[a-zA-Z0-9\-]`? -/
def isAllowedKeyChar (c : Char) : Bool :=
  c.isAlpha || c.isDigit || c == '-'

/-- `key.replace(/[^a-zA-Z0-9\-]/g, "-")`. -/
def replaceDisallowed (k : String) : String :=
  String.mk (k.data.map (fun c => if isAllowedKeyChar c then c else '-'))

/-- The sanitized attribute key:
`key.replace(/[^a-zA-Z0-9\-]/g, "-").toLowerCase()`.  `toLowerCase`
lower-cases the string character by character; after the replace only
ASCII remains, where JavaScript's `toLowerCase` agrees with the ASCII
`Char.toLower`. -/
def sanitizeKey (k : String) : String :=
  String.mk ((replaceDisallowed k).data.map Char.toLower)

/-- `prohibitedAttributeNames`: attributes set by Obsidian itself that
the plugin never writes or removes. -/
def prohibitedAttributeNames : List String :=
  ["data-type", "data-mode"]

/-- The attribute set of one DOM element, as a map from attribute name
to optional value. -/
abbrev AttrMap : Type := String → Option String

/-- `element.setAttribute(name, v)`. -/
def setAttribute (a : AttrMap) (name v : String) : AttrMap :=
  fun m => if m = name then some v else a m

/-- `element.removeAttribute(name)`. -/
def removeAttribute (a : AttrMap) (name : String) : AttrMap :=
  fun m => if m = name then none else a m

/-- The state of one target element: its DOM attributes together with
the plugin's `appliedAttributes` record for it (`none` when the WeakMap
holds no entry for the element). -/
structure ElemState where
  attrs : AttrMap
  applied : Option (List String)

/-- One iteration of the `for (const key of addedKeys)` loop of
`clearAttributes`: skip prohibited names, remove the rest. -/
def clearLoopStep (a : AttrMap) (key : String) : AttrMap :=
  let htmlAttrib := "data-" ++ key
  if prohibitedAttributeNames.contains htmlAttrib then a
  else removeAttribute a htmlAttrib

/-- `clearAttributes(element)`: if a record of previously added keys
exists, remove `data-<key>` for each non-prohibited key and delete the
record; otherwise do nothing. -/
def clearAttributes (s : ElemState) : ElemState :=
  match s.applied with
  | none => s
  | some addedKeys =>
    { attrs := addedKeys.foldl clearLoopStep s.attrs
      applied := none }

/-- A frontmatter snapshot: the record's own enumerable keys paired with
their values, in `for..in` iteration order. -/
abbrev Frontmatter : Type := List (String × Value)

/-- One iteration of the `for (const key in frontmatter)` loop, carrying
the element's attribute map and the `newKeys` accumulator. -/
def applyLoopStep (p : AttrMap × List String) (kv : String × Value) : AttrMap × List String :=
  let processedValue := serializeValue kv.2
  let attributeKey := sanitizeKey kv.1
  let htmlAttrib := "data-" ++ attributeKey
  if prohibitedAttributeNames.contains htmlAttrib then p
  else (setAttribute p.1 htmlAttrib processedValue, p.2 ++ [attributeKey])

/-- The core of `applyAttributes` acting on the resolved target element:
clear previous attributes, stop if the metadata cache has no frontmatter
for the file, otherwise write all non-prohibited sanitized keys and
record them when at least one was written. -/
def applyAttributesElem (fm? : Option Frontmatter) (s : ElemState) : ElemState :=
  let s1 := clearAttributes s
  match fm? with
  | none => s1
  | some fm =>
    let r := fm.foldl applyLoopStep (s1.attrs, [])
    { attrs := r.1
      applied := if r.2.length > 0 then some r.2 else s1.applied }

/-- The workspace state visible to the plugin: every element's attribute
map and the `appliedAttributes` WeakMap, both keyed by element identity. -/
structure World where
  attrs : Nat → AttrMap
  applied : Nat → Option (List String)

/-- The state of element `e` inside `w`. -/
def World.elem (w : World) (e : Nat) : ElemState :=
  ⟨w.attrs e, w.applied e⟩

/-- Replace the state of element `e` inside `w`. -/
def World.setElem (w : World) (e : Nat) (s : ElemState) : World :=
  { attrs := fun i => if i = e then s.attrs else w.attrs i
    applied := fun i => if i = e then s.applied else w.applied i }

/-- A workspace leaf: whether its view is a `MarkdownView`, the path of
`leaf.view.file` (absent when no file is shown), and the identity of
`leaf.view.containerEl` (absent when unresolvable). -/
structure Leaf where
  isMarkdown : Bool
  filePath : Option String
  containerEl : Option Nat

/-- `applyAttributes(file, leaf)`: early-return when `file` or `leaf` is
absent or the container element is unresolvable, otherwise run the
clear-then-apply core on that element.  `meta` models
`this.app.metadataCache.getFileCache(file)?.frontmatter` as a lookup
from the file's path. -/
def applyAttributes (meta : String → Option Frontmatter)
    (file : Option String) (leaf : Option Leaf) (w : World) : World :=
  match file, leaf with
  | some f, some l =>
    match l.containerEl with
    | some e => w.setElem e (applyAttributesElem (meta f) (w.elem e))
    | none => w
  | _, _ => w

/-- `handleMetadataChange(file)`: for every markdown leaf whose shown
file has the changed file's path, run `applyAttributes(file, leaf)`. -/
def handleMetadataChange (meta : String → Option Frontmatter)
    (leaves : List Leaf) (filePath : String) (w : World) : World :=
  leaves.foldl (fun w leaf =>
    if leaf.isMarkdown then
      match leaf.filePath with
      | some p => if p = filePath then applyAttributes meta (some filePath) (some leaf) w else w
      | none => w
    else w) w

/-- The `newKeys` list the apply loop accumulates on snapshot `fm`:
one sanitized key per non-prohibited metadata key, in order. -/
def newKeysOf : Frontmatter → List String
  | [] => []
  | kv :: rest =>
    if prohibitedAttributeNames.contains ("data-" ++ sanitizeKey kv.1) then newKeysOf rest
    else sanitizeKey kv.1 :: newKeysOf rest

/-- The attribute names actually written by the apply loop on snapshot
`fm`, one entry per `setAttribute` call, in call order. -/
def writtenNames (fm : Frontmatter) : List String :=
  (newKeysOf fm).map (fun k => "data-" ++ k)

/-- All candidate `data-` attribute names of a snapshot, prohibited ones
included. -/
def allDataNames (fm : Frontmatter) : List String :=
  fm.map (fun kv => "data-" ++ sanitizeKey kv.1)

/-- The `data-` attribute names recorded for the element. -/
def recordDataNames (s : ElemState) : List String :=
  (s.applied.getD []).map (fun k => "data-" ++ k)

/-- The serialized value of the last metadata entry whose candidate
attribute name is `n`, if any. -/
def lastValue (fm : Frontmatter) (n : String) : Option String :=
  match fm with
  | [] => none
  | kv :: rest =>
    match lastValue rest n with
    | some v => some v
    | none =>
      if ("data-" ++ sanitizeKey kv.1) = n then some (serializeValue kv.2) else none

/-- Modelled from the spec: the sanitized key computed the way the spec
words it — "lower-case the key, then replace every character that is
not an ASCII letter, digit, or hyphen with a hyphen" — to be compared
with `sanitizeKey`, which (like the source) replaces first and
lower-cases afterwards. -/
def specSanitizeKey (k : String) : String :=
  String.mk ((k.data.map Char.toLower).map (fun c => if isAllowedKeyChar c then c else '-'))

/-!
Ghost-instrumented variants of the two operations, used to express the
bookkeeping invariant: alongside the element state they carry the set
(as a duplicate-free list) of attribute names this system has written
onto the element and not since removed.  The element-state component
computes exactly as the uninstrumented operations do (proved below by
the projection lemmas `clearG_fst` and `applyG_fst`).
-/

/-- `clearLoopStep`, also erasing removed names from the ghost set. -/
def clearLoopStepG (p : AttrMap × List String) (key : String) : AttrMap × List String :=
  let htmlAttrib := "data-" ++ key
  if prohibitedAttributeNames.contains htmlAttrib then p
  else (removeAttribute p.1 htmlAttrib, p.2.filter (fun m => m ≠ htmlAttrib))

/-- `clearAttributes`, also maintaining the ghost set. -/
def clearAttributesG (s : ElemState) (g : List String) : ElemState × List String :=
  match s.applied with
  | none => (s, g)
  | some addedKeys =>
    let r := addedKeys.foldl clearLoopStepG (s.attrs, g)
    (⟨r.1, none⟩, r.2)

/-- `applyLoopStep`, also inserting written names into the ghost set. -/
def applyLoopStepG (p : (AttrMap × List String) × List String) (kv : String × Value) :
    (AttrMap × List String) × List String :=
  let processedValue := serializeValue kv.2
  let attributeKey := sanitizeKey kv.1
  let htmlAttrib := "data-" ++ attributeKey
  if prohibitedAttributeNames.contains htmlAttrib then p
  else ((setAttribute p.1.1 htmlAttrib processedValue, p.1.2 ++ [attributeKey]),
        p.2.insert htmlAttrib)

/-- `applyAttributesElem`, also maintaining the ghost set. -/
def applyAttributesElemG (fm? : Option Frontmatter) (s : ElemState) (g : List String) :
    ElemState × List String :=
  let c := clearAttributesG s g
  match fm? with
  | none => c
  | some fm =>
    let r := fm.foldl applyLoopStepG ((c.1.attrs, []), c.2)
    (⟨r.1.1, if r.1.2.length > 0 then some r.1.2 else c.1.applied⟩, r.2)

/-- One call the synchronizer can make on a tracked element: an
`applyAttributes` call (with whatever frontmatter the metadata cache
returns at that moment) or a `clearAttributes` call. -/
inductive SyncOp where
  | applyOp (fm? : Option Frontmatter)
  | clearOp

/-- Run one instrumented call. -/
def runOp (p : ElemState × List String) : SyncOp → ElemState × List String
  | .applyOp fm? => applyAttributesElemG fm? p.1 p.2
  | .clearOp => clearAttributesG p.1 p.2

/-- Run a sequence of instrumented calls. -/
def runOps (ops : List SyncOp) (p : ElemState × List String) : ElemState × List String :=
  ops.foldl runOp p

/-- Run one call, uninstrumented. -/
def runPlainOp (s : ElemState) : SyncOp → ElemState
  | .applyOp fm? => applyAttributesElem fm? s
  | .clearOp => clearAttributes s

/-- Run a sequence of calls, uninstrumented. -/
def runPlainOps (ops : List SyncOp) (s : ElemState) : ElemState :=
  ops.foldl runPlainOp s

/-! ### Helper lemmas -/

theorem elemState_ext {s t : ElemState} (h1 : ∀ n, s.attrs n = t.attrs n)
    (h2 : s.applied = t.applied) : s = t := by
  cases s with
  | mk a p =>
    cases t with
    | mk b q =>
      have ha : a = b := funext h1
      cases ha
      cases h2
      rfl

theorem world_ext {w v : World} (h1 : ∀ i n, w.attrs i n = v.attrs i n)
    (h2 : ∀ i, w.applied i = v.applied i) : w = v := by
  cases w with
  | mk a p =>
    cases v with
    | mk b q =>
      have ha : a = b := funext fun i => funext fun n => h1 i n
      have hp : p = q := funext h2
      cases ha
      cases hp
      rfl

theorem setAttribute_same (a : AttrMap) (name v : String) :
    setAttribute a name v name = some v := by
  simp [setAttribute]

theorem setAttribute_other (a : AttrMap) (name v n : String) (h : n ≠ name) :
    setAttribute a name v n = a n := by
  simp [setAttribute, h]

theorem removeAttribute_same (a : AttrMap) (name : String) :
    removeAttribute a name name = none := by
  simp [removeAttribute]

theorem removeAttribute_other (a : AttrMap) (name n : String) (h : n ≠ name) :
    removeAttribute a name n = a n := by
  simp [removeAttribute, h]

theorem contains_ne_of_false {l : List String} {x : String}
    (h : l.contains x = false) : ¬(l.contains x = true) := by
  intro hc
  rw [h] at hc
  exact Bool.false_ne_true hc

theorem clearLoopStep_eval (a : AttrMap) (key n : String) :
    clearLoopStep a key n =
      if prohibitedAttributeNames.contains ("data-" ++ key) = true then a n
      else if n = "data-" ++ key then none else a n := by
  simp only [clearLoopStep, removeAttribute]
  by_cases hp : prohibitedAttributeNames.contains ("data-" ++ key) = true
  · rw [if_pos hp, if_pos hp]
  · rw [if_neg hp, if_neg hp]
    rfl

theorem clearLoop_absorb (ks : List String) (a : AttrMap) (n : String) (h : a n = none) :
    (ks.foldl clearLoopStep a) n = none := by
  induction ks generalizing a with
  | nil => exact h
  | cons k ks ih =>
    rw [List.foldl_cons]
    apply ih
    rw [clearLoopStep_eval]
    by_cases hp : prohibitedAttributeNames.contains ("data-" ++ k) = true
    · rw [if_pos hp]; exact h
    · rw [if_neg hp]
      by_cases he : n = "data-" ++ k
      · rw [if_pos he]
      · rw [if_neg he]; exact h

theorem clearLoop_none (ks : List String) (a : AttrMap) (n : String)
    (h : ∃ k ∈ ks, "data-" ++ k = n ∧
      prohibitedAttributeNames.contains ("data-" ++ k) = false) :
    (ks.foldl clearLoopStep a) n = none := by
  induction ks generalizing a with
  | nil => simp at h
  | cons k ks ih =>
    obtain ⟨k', hk', hn', hp'⟩ := h
    rcases List.mem_cons.mp hk' with hhead | htail
    · subst hhead
      rw [List.foldl_cons]
      apply clearLoop_absorb
      rw [clearLoopStep_eval, if_neg (contains_ne_of_false hp'), if_pos hn'.symm]
    · rw [List.foldl_cons]
      exact ih _ ⟨k', htail, hn', hp'⟩

theorem clearLoop_frame (ks : List String) (a : AttrMap) (n : String)
    (h : ∀ k ∈ ks, "data-" ++ k = n →
      prohibitedAttributeNames.contains ("data-" ++ k) = true) :
    (ks.foldl clearLoopStep a) n = a n := by
  induction ks generalizing a with
  | nil => rfl
  | cons k ks ih =>
    rw [List.foldl_cons, ih _ (fun k' hk' => h k' (List.mem_cons_of_mem _ hk')),
      clearLoopStep_eval]
    by_cases hp : prohibitedAttributeNames.contains ("data-" ++ k) = true
    · rw [if_pos hp]
    · rw [if_neg hp]
      by_cases he : n = "data-" ++ k
      · exact absurd (h k (List.mem_cons_self k ks) he.symm) hp
      · rw [if_neg he]

theorem clear_attrs_none {s : ElemState} {n : String}
    (h : ∃ k ∈ s.applied.getD [], "data-" ++ k = n ∧
      prohibitedAttributeNames.contains ("data-" ++ k) = false) :
    (clearAttributes s).attrs n = none := by
  cases hs : s.applied with
  | none => simp [hs] at h
  | some ks =>
    rw [hs] at h
    simp only [clearAttributes, hs]
    exact clearLoop_none ks s.attrs n (by simpa using h)

theorem clear_attrs_frame {s : ElemState} {n : String}
    (h : ∀ k ∈ s.applied.getD [], "data-" ++ k = n →
      prohibitedAttributeNames.contains ("data-" ++ k) = true) :
    (clearAttributes s).attrs n = s.attrs n := by
  cases hs : s.applied with
  | none => simp [clearAttributes, hs]
  | some ks =>
    rw [hs] at h
    simp only [clearAttributes, hs]
    exact clearLoop_frame ks s.attrs n (by simpa using h)

theorem clear_applied (s : ElemState) : (clearAttributes s).applied = none := by
  cases h : s.applied with
  | none => simp [clearAttributes, h]
  | some ks => simp [clearAttributes, h]

theorem clear_of_none {s : ElemState} (h : s.applied = none) : clearAttributes s = s := by
  simp [clearAttributes, h]

theorem clear_attrs_proh {s : ElemState} {n : String}
    (hn : prohibitedAttributeNames.contains n = true) :
    (clearAttributes s).attrs n = s.attrs n := by
  apply clear_attrs_frame
  intro k _ hk
  rw [hk]
  exact hn

theorem newKeysOf_cons (kv : String × Value) (fm : Frontmatter) :
    newKeysOf (kv :: fm) =
      if prohibitedAttributeNames.contains ("data-" ++ sanitizeKey kv.1) = true
      then newKeysOf fm else sanitizeKey kv.1 :: newKeysOf fm := rfl

theorem applyLoopStep_def (p : AttrMap × List String) (kv : String × Value) :
    applyLoopStep p kv =
      if prohibitedAttributeNames.contains ("data-" ++ sanitizeKey kv.1) = true then p
      else (setAttribute p.1 ("data-" ++ sanitizeKey kv.1) (serializeValue kv.2),
            p.2 ++ [sanitizeKey kv.1]) := rfl

theorem loop_keys (fm : Frontmatter) (a : AttrMap) (ks : List String) :
    (fm.foldl applyLoopStep (a, ks)).2 = ks ++ newKeysOf fm := by
  induction fm generalizing a ks with
  | nil => simp [newKeysOf]
  | cons kv fm ih =>
    rw [List.foldl_cons, applyLoopStep_def]
    by_cases hp : prohibitedAttributeNames.contains ("data-" ++ sanitizeKey kv.1) = true
    · rw [if_pos hp, ih, newKeysOf_cons, if_pos hp]
    · rw [if_neg hp, ih, newKeysOf_cons, if_neg hp]
      rw [List.append_assoc, List.singleton_append]

theorem loop_attrs_proh {n : String}
    (hn : prohibitedAttributeNames.contains n = true)
    (fm : Frontmatter) (a : AttrMap) (ks : List String) :
    (fm.foldl applyLoopStep (a, ks)).1 n = a n := by
  induction fm generalizing a ks with
  | nil => rfl
  | cons kv fm ih =>
    rw [List.foldl_cons, applyLoopStep_def]
    by_cases hp : prohibitedAttributeNames.contains ("data-" ++ sanitizeKey kv.1) = true
    · rw [if_pos hp]
      exact ih a ks
    · rw [if_neg hp]
      rw [ih]
      apply setAttribute_other
      intro he
      rw [he] at hn
      exact hp hn

theorem loop_attrs_val {n : String}
    (hn : prohibitedAttributeNames.contains n = false)
    (fm : Frontmatter) (a : AttrMap) (ks : List String) :
    (fm.foldl applyLoopStep (a, ks)).1 n =
      match lastValue fm n with
      | some v => some v
      | none => a n := by
  induction fm generalizing a ks with
  | nil => simp [lastValue]
  | cons kv fm ih =>
    rw [List.foldl_cons, applyLoopStep_def]
    cases hl : lastValue fm n with
    | some v =>
      have hcons : lastValue (kv :: fm) n = some v := by
        simp [lastValue, hl]
      rw [hcons]
      by_cases hp : prohibitedAttributeNames.contains ("data-" ++ sanitizeKey kv.1) = true
      · rw [if_pos hp, ih, hl]
      · rw [if_neg hp, ih, hl]
    | none =>
      by_cases he : ("data-" ++ sanitizeKey kv.1) = n
      · have hp : prohibitedAttributeNames.contains ("data-" ++ sanitizeKey kv.1) = false := by
          rw [he]; exact hn
        have hcons : lastValue (kv :: fm) n = some (serializeValue kv.2) := by
          simp [lastValue, hl, he]
        rw [hcons, if_neg (contains_ne_of_false hp), ih, hl, he, setAttribute_same]
      · have hcons : lastValue (kv :: fm) n = none := by
          simp [lastValue, hl, he]
        rw [hcons]
        by_cases hp : prohibitedAttributeNames.contains ("data-" ++ sanitizeKey kv.1) = true
        · rw [if_pos hp, ih, hl]
        · rw [if_neg hp, ih, hl]
          exact setAttribute_other _ _ _ _ (fun h => he h.symm)

theorem lastValue_none_iff (fm : Frontmatter) (n : String) :
    lastValue fm n = none ↔ ∀ kv ∈ fm, ("data-" ++ sanitizeKey kv.1) ≠ n := by
  induction fm with
  | nil => simp [lastValue]
  | cons kv fm ih =>
    cases hl : lastValue fm n with
    | some v =>
      apply iff_of_false
      · simp [lastValue, hl]
      · intro hall
        have : lastValue fm n = none :=
          ih.mpr (fun kv' h => hall kv' (List.mem_cons_of_mem _ h))
        rw [hl] at this
        exact Option.noConfusion this
    | none =>
      by_cases he : ("data-" ++ sanitizeKey kv.1) = n
      · apply iff_of_false
        · simp [lastValue, hl, he]
        · intro hall
          exact hall kv (List.mem_cons_self kv fm) he
      · apply iff_of_true
        · simp [lastValue, hl, he]
        · intro kv' hkv'
          rcases List.mem_cons.mp hkv' with hh | ht
          · rw [hh]; exact he
          · exact (ih.mp hl) kv' ht

theorem mem_newKeysOf {k : String} {fm : Frontmatter} :
    k ∈ newKeysOf fm ↔
      prohibitedAttributeNames.contains ("data-" ++ k) = false ∧
        ∃ kv ∈ fm, sanitizeKey kv.1 = k := by
  induction fm with
  | nil => simp [newKeysOf]
  | cons kv fm ih =>
    by_cases hp : prohibitedAttributeNames.contains ("data-" ++ sanitizeKey kv.1) = true
    · simp only [newKeysOf, if_pos hp, ih]
      constructor
      · rintro ⟨h1, kv', h2, h3⟩
        exact ⟨h1, kv', List.mem_cons_of_mem _ h2, h3⟩
      · rintro ⟨h1, kv', h2, h3⟩
        rcases List.mem_cons.mp h2 with hh | ht
        · subst hh
          rw [h3] at hp
          rw [hp] at h1
          exact absurd h1 (by simp)
        · exact ⟨h1, kv', ht, h3⟩
    · have hp' : prohibitedAttributeNames.contains ("data-" ++ sanitizeKey kv.1) = false :=
        Bool.not_eq_true _ ▸ hp
      simp only [newKeysOf, hp', Bool.false_eq_true, if_false, List.mem_cons, ih]
      constructor
      · rintro (hh | ⟨h1, kv', h2, h3⟩)
        · subst hh
          exact ⟨hp', kv, Or.inl rfl, rfl⟩
        · exact ⟨h1, kv', Or.inr h2, h3⟩
      · rintro ⟨h1, kv', h2, h3⟩
        rcases h2 with hh | ht
        · subst hh
          exact Or.inl h3.symm
        · exact Or.inr ⟨h1, kv', ht, h3⟩

theorem mem_writtenNames {n : String} {fm : Frontmatter} :
    n ∈ writtenNames fm ↔
      prohibitedAttributeNames.contains n = false ∧
        ∃ kv ∈ fm, ("data-" ++ sanitizeKey kv.1) = n := by
  simp only [writtenNames, List.mem_map]
  constructor
  · rintro ⟨k, hk, rfl⟩
    obtain ⟨h1, kv, h2, h3⟩ := mem_newKeysOf.mp hk
    exact ⟨h1, kv, h2, by rw [h3]⟩
  · rintro ⟨h1, kv, h2, h3⟩
    refine ⟨sanitizeKey kv.1, ?_, h3⟩
    exact mem_newKeysOf.mpr ⟨by rw [h3]; exact h1, kv, h2, rfl⟩

theorem data_prefix_inj {a b : String} (h : "data-" ++ a = "data-" ++ b) : a = b := by
  have hd : ("data-" ++ a).data = ("data-" ++ b).data := congrArg String.data h
  simp only [String.data_append] at hd
  have hab : a.data = b.data := List.append_cancel_left hd
  exact congrArg String.mk hab

theorem applyElem_none (s : ElemState) : applyAttributesElem none s = clearAttributes s := rfl

theorem applyElem_attrs_val {n : String}
    (hn : prohibitedAttributeNames.contains n = false)
    (fm : Frontmatter) (s : ElemState) :
    (applyAttributesElem (some fm) s).attrs n =
      match lastValue fm n with
      | some v => some v
      | none => (clearAttributes s).attrs n := by
  simp only [applyAttributesElem]
  exact loop_attrs_val hn fm _ _

theorem applyElem_attrs_proh {n : String}
    (hn : prohibitedAttributeNames.contains n = true)
    (fm? : Option Frontmatter) (s : ElemState) :
    (applyAttributesElem fm? s).attrs n = s.attrs n := by
  cases fm? with
  | none =>
    rw [applyElem_none]
    exact clear_attrs_proh hn
  | some fm =>
    simp only [applyAttributesElem]
    rw [loop_attrs_proh hn]
    exact clear_attrs_proh hn

theorem applyElem_applied (fm : Frontmatter) (s : ElemState) :
    (applyAttributesElem (some fm) s).applied =
      if newKeysOf fm = [] then none else some (newKeysOf fm) := by
  simp only [applyAttributesElem]
  rw [loop_keys, List.nil_append, clear_applied]
  cases h : newKeysOf fm with
  | nil => simp
  | cons x xs => simp

theorem setElem_attrs_self (w : World) (e : Nat) (s : ElemState) :
    (w.setElem e s).attrs e = s.attrs := by
  simp [World.setElem]

theorem setElem_attrs_ne (w : World) (e : Nat) (s : ElemState) {i : Nat} (h : i ≠ e) :
    (w.setElem e s).attrs i = w.attrs i := by
  simp [World.setElem, h]

theorem setElem_applied_self (w : World) (e : Nat) (s : ElemState) :
    (w.setElem e s).applied e = s.applied := by
  simp [World.setElem]

theorem setElem_applied_ne (w : World) (e : Nat) (s : ElemState) {i : Nat} (h : i ≠ e) :
    (w.setElem e s).applied i = w.applied i := by
  simp [World.setElem, h]

theorem elem_setElem_self (w : World) (e : Nat) (s : ElemState) :
    (w.setElem e s).elem e = s := by
  simp [World.elem, World.setElem]

theorem setElem_setElem (w : World) (e : Nat) (s t : ElemState) :
    (w.setElem e s).setElem e t = w.setElem e t := by
  apply world_ext
  · intro i n
    by_cases h : i = e
    · subst h
      rw [setElem_attrs_self, setElem_attrs_self]
    · rw [setElem_attrs_ne _ _ _ h, setElem_attrs_ne _ _ _ h, setElem_attrs_ne _ _ _ h]
  · intro i
    by_cases h : i = e
    · subst h
      rw [setElem_applied_self, setElem_applied_self]
    · rw [setElem_applied_ne _ _ _ h, setElem_applied_ne _ _ _ h, setElem_applied_ne _ _ _ h]

theorem applyElem_idem (fm? : Option Frontmatter) (s : ElemState) :
    applyAttributesElem fm? (applyAttributesElem fm? s) = applyAttributesElem fm? s := by
  cases fm? with
  | none =>
    rw [applyElem_none, applyElem_none]
    exact clear_of_none (clear_applied s)
  | some fm =>
    apply elemState_ext
    · intro n
      by_cases hn : prohibitedAttributeNames.contains n = true
      · rw [applyElem_attrs_proh hn]
      · have hn' : prohibitedAttributeNames.contains n = false := Bool.not_eq_true _ ▸ hn
        rw [applyElem_attrs_val hn']
        cases hl : lastValue fm n with
        | some v =>
          rw [applyElem_attrs_val hn', hl]
        | none =>
          apply clear_attrs_frame
          intro k hk hkn
          exfalso
          rw [applyElem_applied] at hk
          by_cases hz : newKeysOf fm = []
          · rw [if_pos hz] at hk
            simp at hk
          · rw [if_neg hz] at hk
            simp only [Option.getD_some] at hk
            obtain ⟨hpk, kv, hkv, hsan⟩ := mem_newKeysOf.mp hk
            exact (lastValue_none_iff fm n).mp hl kv hkv (by rw [hsan, hkn])
    · rw [applyElem_applied, applyElem_applied]

theorem toLower_replace_comm (c : Char) :
    Char.toLower (if isAllowedKeyChar c then c else '-') =
      (if isAllowedKeyChar (Char.toLower c) then Char.toLower c else '-') := by
  by_cases h65 : c.toNat ≥ 65 ∧ c.toNat ≤ 90
  · obtain ⟨h1, h2⟩ := h65
    obtain ⟨n, hn⟩ : ∃ n, n = c.toNat := ⟨_, rfl⟩
    have hb1 : 65 ≤ n := by omega
    have hb2 : n ≤ 90 := by omega
    have hc : c = Char.ofNat n := by rw [hn, Char.ofNat_toNat]
    subst hc
    interval_cases n <;> decide
  · have hl : Char.toLower c = c := by
      simp only [Char.toLower]
      rw [if_neg h65]
    rw [hl]
    by_cases hA : isAllowedKeyChar c = true
    · rw [if_pos hA, hl]
    · rw [if_neg hA]
      decide

theorem sanitizeKey_eq_spec (k : String) : sanitizeKey k = specSanitizeKey k := by
  have hdata : (replaceDisallowed k).data =
      k.data.map (fun c => if isAllowedKeyChar c then c else '-') := rfl
  show String.mk ((replaceDisallowed k).data.map Char.toLower) =
    String.mk ((k.data.map Char.toLower).map (fun c => if isAllowedKeyChar c then c else '-'))
  rw [hdata, List.map_map, List.map_map]
  exact congrArg String.mk
    (congrArg (fun f => List.map f k.data) (funext toLower_replace_comm))

/-! ### Claim theorems -/

/-- C5: for every metadata key, the sanitized key equals the result of
lower-casing the key and then replacing every character that is not an
ASCII letter, digit, or hyphen with a hyphen (`specSanitizeKey`); in
particular the key "My Tag!" yields the attribute name `data-my-tag-`. -/
theorem C5_key_sanitization :
    (∀ k : String, sanitizeKey k = specSanitizeKey k) ∧
      sanitizeKey "My Tag!" = "my-tag-" ∧
      ("data-" ++ sanitizeKey "My Tag!") = "data-my-tag-" :=
  ⟨sanitizeKey_eq_spec, by decide, by decide⟩

/-- C2: `applyAttributes` is idempotent — calling it twice in succession
with unchanged metadata leaves the same final attribute set and the same
applied-attribute record as calling it once, for every document, leaf
and workspace state. -/
theorem C2_applyAttributes_idempotent (meta : String → Option Frontmatter)
    (file : Option String) (leaf : Option Leaf) (w : World) :
    applyAttributes meta file leaf (applyAttributes meta file leaf w) =
      applyAttributes meta file leaf w := by
  cases file with
  | none => rfl
  | some f =>
    cases leaf with
    | none => rfl
    | some l =>
      cases hce : l.containerEl with
      | none => simp [applyAttributes, hce]
      | some e =>
        simp only [applyAttributes, hce]
        rw [elem_setElem_self, applyElem_idem, setElem_setElem]

/-- C4: when the metadata snapshot contains a key sanitizing to `type`
or `mode`, neither `applyAttributes` nor `clearAttributes` writes or
removes the attributes `data-type` / `data-mode` (their values on the
element are untouched). -/
theorem C4_reserved_name_protection (fm : Frontmatter) (s : ElemState)
    (h : ∃ kv ∈ fm, sanitizeKey kv.1 = "type" ∨ sanitizeKey kv.1 = "mode") :
    (applyAttributesElem (some fm) s).attrs "data-type" = s.attrs "data-type" ∧
    (applyAttributesElem (some fm) s).attrs "data-mode" = s.attrs "data-mode" ∧
    (clearAttributes s).attrs "data-type" = s.attrs "data-type" ∧
    (clearAttributes s).attrs "data-mode" = s.attrs "data-mode" :=
  ⟨applyElem_attrs_proh (by decide) _ _, applyElem_attrs_proh (by decide) _ _,
   clear_attrs_proh (by decide), clear_attrs_proh (by decide)⟩

/-- Witness for C4 at the concrete snapshot `{TYPE: "x"}` over an element
that carries `data-type="markdown"`. -/
theorem C4_reserved_name_protection_witness :
    (applyAttributesElem (some [("TYPE", Value.str "x")])
        ⟨setAttribute (fun _ => none) "data-type" "markdown", none⟩).attrs "data-type" =
      (ElemState.mk (setAttribute (fun _ => none) "data-type" "markdown") none).attrs
        "data-type" :=
  (C4_reserved_name_protection [("TYPE", Value.str "x")]
    ⟨setAttribute (fun _ => none) "data-type" "markdown", none⟩
    ⟨("TYPE", Value.str "x"), List.mem_cons_self _ _, Or.inl (by decide)⟩).1

/-- C6: the attribute value written by `applyAttributes` is the canonical
textual representation for strings, numbers and booleans, and the JSON
serialization for arrays and objects; writing a single non-reserved key
stores exactly `serializeValue` of its value, and the example snapshot
`{tags: ["travel","asia"], start: "2025-10-27", end: null, insurance: true}`
produces `data-tags='["travel","asia"]'`, `data-start="2025-10-27"`,
`data-insurance="true"` and `data-end="null"` (the implementation's null
representation, `JSON.stringify(null)`). -/
theorem C6_value_serialization :
    (∀ s : String, serializeValue (.str s) = s) ∧
    (∀ n : Int, serializeValue (.num n) = toString n) ∧
    (∀ b : Bool, serializeValue (.bool b) = if b then "true" else "false") ∧
    (∀ es : List Value, serializeValue (.arr es) = (jsonStringify (.arr es)).getD "undefined") ∧
    (∀ fs : List (String × Value),
      serializeValue (.obj fs) = (jsonStringify (.obj fs)).getD "undefined") ∧
    (∀ (k : String) (v : Value) (s : ElemState),
      prohibitedAttributeNames.contains ("data-" ++ sanitizeKey k) = false →
      (applyAttributesElem (some [(k, v)]) s).attrs ("data-" ++ sanitizeKey k) =
        some (serializeValue v)) ∧
    ((applyAttributesElem
        (some [("tags", .arr [.str "travel", .str "asia"]),
               ("start", .str "2025-10-27"),
               ("end", .null),
               ("insurance", .bool true)])
        ⟨fun _ => none, none⟩).attrs "data-tags" = some "[\"travel\",\"asia\"]" ∧
     (applyAttributesElem
        (some [("tags", .arr [.str "travel", .str "asia"]),
               ("start", .str "2025-10-27"),
               ("end", .null),
               ("insurance", .bool true)])
        ⟨fun _ => none, none⟩).attrs "data-start" = some "2025-10-27" ∧
     (applyAttributesElem
        (some [("tags", .arr [.str "travel", .str "asia"]),
               ("start", .str "2025-10-27"),
               ("end", .null),
               ("insurance", .bool true)])
        ⟨fun _ => none, none⟩).attrs "data-insurance" = some "true" ∧
     (applyAttributesElem
        (some [("tags", .arr [.str "travel", .str "asia"]),
               ("start", .str "2025-10-27"),
               ("end", .null),
               ("insurance", .bool true)])
        ⟨fun _ => none, none⟩).attrs "data-end" = some "null") := by
  refine ⟨fun s => rfl, fun n => rfl, fun b => rfl, fun es => rfl, fun fs => rfl,
    ?_, by decide, by decide, by decide, by decide⟩
  intro k v s hk
  rw [applyElem_attrs_val hk]
  simp [lastValue]

/-- Witness for C6's single-key clause at key "colour", value `27`. -/
theorem C6_value_serialization_witness :
    (applyAttributesElem (some [("colour", Value.num 27)])
        ⟨fun _ => none, none⟩).attrs ("data-" ++ sanitizeKey "colour") =
      some (serializeValue (Value.num 27)) :=
  C6_value_serialization.2.2.2.2.2.1 "colour" (Value.num 27) ⟨fun _ => none, none⟩ (by decide)

theorem clear_preserves_none {s : ElemState} {n : String} (h : s.attrs n = none) :
    (clearAttributes s).attrs n = none := by
  cases hs : s.applied with
  | none => simpa [clearAttributes, hs] using h
  | some ks =>
    simp only [clearAttributes, hs]
    exact clearLoop_absorb ks s.attrs n h

/-- C3 counterexample: an element whose record holds the sanitized key
`my-key` and whose metadata snapshot has no key *named* `my-key` — but
has the key "my key", which *sanitizes* to `my-key` — ends with
`data-my-key` present (value "v"), contradicting the claim that
`data-my-key` would be absent. -/
theorem C3_cleanup_before_apply_counterexample :
    ("my-key" ∈ (ElemState.mk (setAttribute (fun _ => none) "data-my-key" "old")
        (some ["my-key"])).applied.getD []) ∧
    (∀ kv ∈ ([("my key", Value.str "v")] : Frontmatter), kv.1 ≠ "my-key") ∧
    (applyAttributesElem (some [("my key", Value.str "v")])
        ⟨setAttribute (fun _ => none) "data-my-key" "old", some ["my-key"]⟩).attrs
      "data-my-key" = some "v" := by
  refine ⟨by decide, ?_, by decide⟩
  intro kv hkv
  rw [List.mem_singleton] at hkv
  subst hkv
  decide

/-- C3 (amended): for every element whose prior applied-attribute record
contains the non-reserved sanitized key K, calling `applyAttributes` with
a metadata snapshot in which no key *sanitizes to* K results in the
attribute `data-K` being absent afterward. -/
theorem C3_cleanup_before_apply (s : ElemState) (fm : Frontmatter) (K : String)
    (hrec : K ∈ s.applied.getD [])
    (hp : prohibitedAttributeNames.contains ("data-" ++ K) = false)
    (hno : ∀ kv ∈ fm, sanitizeKey kv.1 ≠ K) :
    (applyAttributesElem (some fm) s).attrs ("data-" ++ K) = none := by
  rw [applyElem_attrs_val hp]
  have hlv : lastValue fm ("data-" ++ K) = none := by
    rw [lastValue_none_iff]
    intro kv hkv he
    exact hno kv hkv (data_prefix_inj he)
  rw [hlv]
  exact clear_attrs_none ⟨K, hrec, rfl, hp⟩

/-- Witness for the amended C3 at record `["foo"]` and snapshot `{bar: "v"}`. -/
theorem C3_cleanup_before_apply_witness :
    (applyAttributesElem (some [("bar", Value.str "v")])
        ⟨setAttribute (fun _ => none) "data-foo" "old", some ["foo"]⟩).attrs
      "data-foo" = none :=
  C3_cleanup_before_apply
    ⟨setAttribute (fun _ => none) "data-foo" "old", some ["foo"]⟩
    [("bar", Value.str "v")] "foo" (by decide) (by decide)
    (fun kv hkv => by
      rw [List.mem_singleton] at hkv
      subst hkv
      decide)

/-- C7 counterexample: with metadata absent but a prior record present,
`applyAttributes` is *not* a table-preserving no-op — the element's
record is deleted by the unconditional clear. -/
theorem C7_absent_input_counterexample :
    ((World.mk (fun _ => fun _ => none) (fun _ => some ["foo"])).applied 0 = some ["foo"]) ∧
    ((applyAttributes (fun _ => none) (some "f") (some ⟨true, some "f", some 0⟩)
        (World.mk (fun _ => fun _ => none) (fun _ => some ["foo"]))).applied 0 = none) :=
  ⟨rfl, by decide⟩

/-- C7 (amended): an absent document or an absent / unresolvable target
element makes `applyAttributes` a complete no-op; with metadata absent
it writes no new attribute and leaves no record for the element (the
prior record is cleared, per step 1); `clearAttributes` on an element
with no record is a no-op. -/
theorem C7_absent_input_noop :
    (∀ (meta : String → Option Frontmatter) (leaf : Option Leaf) (w : World),
      applyAttributes meta none leaf w = w) ∧
    (∀ (meta : String → Option Frontmatter) (file : Option String) (w : World),
      applyAttributes meta file none w = w) ∧
    (∀ (meta : String → Option Frontmatter) (f : String) (l : Leaf) (w : World),
      l.containerEl = none → applyAttributes meta (some f) (some l) w = w) ∧
    (∀ (meta : String → Option Frontmatter) (f : String) (l : Leaf) (e : Nat) (w : World),
      l.containerEl = some e → meta f = none →
      (∀ n, w.attrs e n = none →
        (applyAttributes meta (some f) (some l) w).attrs e n = none) ∧
      (applyAttributes meta (some f) (some l) w).applied e = none) ∧
    (∀ s : ElemState, s.applied = none → clearAttributes s = s) := by
  refine ⟨fun meta leaf w => rfl, fun meta file w => ?_, fun meta f l w h => ?_,
    fun meta f l e w hce hm => ?_, fun s h => clear_of_none h⟩
  · cases file <;> rfl
  · simp [applyAttributes, h]
  · constructor
    · intro n hn
      simp only [applyAttributes, hce]
      rw [setElem_attrs_self, hm, applyElem_none]
      exact clear_preserves_none hn
    · simp only [applyAttributes, hce]
      rw [setElem_applied_self, hm, applyElem_none]
      exact clear_applied _

/-- Witness for the amended C7: unresolvable element → no-op, and absent
metadata → record deleted, at concrete inputs. -/
theorem C7_absent_input_noop_witness :
    (applyAttributes (fun _ => none) (some "f") (some ⟨true, some "f", none⟩)
        (World.mk (fun _ => fun _ => none) (fun _ => none)) =
      World.mk (fun _ => fun _ => none) (fun _ => none)) ∧
    ((applyAttributes (fun _ => none) (some "f") (some ⟨true, some "f", some 0⟩)
        (World.mk (fun _ => fun _ => none) (fun _ => none))).applied 0 = none) :=
  ⟨C7_absent_input_noop.2.2.1 (fun _ => none) "f" ⟨true, some "f", none⟩
      (World.mk (fun _ => fun _ => none) (fun _ => none)) rfl,
   (C7_absent_input_noop.2.2.2.1 (fun _ => none) "f" ⟨true, some "f", some 0⟩ 0
      (World.mk (fun _ => fun _ => none) (fun _ => none)) rfl rfl).2⟩

/-- C10: frame property — `applyAttributes` leaves unchanged every
attribute whose name is neither `data-<k>` for a recorded key k nor
`data-<k'>` for a sanitized key k' of the current snapshot, and
`clearAttributes` changes no attribute outside the recorded key list. -/
theorem C10_frame_property :
    (∀ (fm : Frontmatter) (s : ElemState) (n : String),
      n ∉ recordDataNames s → n ∉ allDataNames fm →
      (applyAttributesElem (some fm) s).attrs n = s.attrs n) ∧
    (∀ (s : ElemState) (n : String),
      n ∉ recordDataNames s → (clearAttributes s).attrs n = s.attrs n) := by
  have hclear : ∀ (s : ElemState) (n : String),
      n ∉ recordDataNames s → (clearAttributes s).attrs n = s.attrs n := by
    intro s n hn
    apply clear_attrs_frame
    intro k hk he
    exact absurd (List.mem_map.mpr ⟨k, hk, he⟩) hn
  refine ⟨?_, hclear⟩
  intro fm s n hrec hfm
  by_cases hp : prohibitedAttributeNames.contains n = true
  · exact applyElem_attrs_proh hp _ _
  · have hp' : prohibitedAttributeNames.contains n = false := Bool.not_eq_true _ ▸ hp
    rw [applyElem_attrs_val hp']
    have hlv : lastValue fm n = none := by
      rw [lastValue_none_iff]
      intro kv hkv he
      exact hfm (List.mem_map.mpr ⟨kv, hkv, he⟩)
    rw [hlv]
    exact hclear s n hrec

/-- Witness for C10 at an untouched attribute name "x". -/
theorem C10_frame_property_witness :
    (applyAttributesElem (some [("a", Value.str "1")])
        ⟨setAttribute (fun _ => none) "x" "keep", some ["b"]⟩).attrs "x" =
      (ElemState.mk (setAttribute (fun _ => none) "x" "keep") (some ["b"])).attrs "x" :=
  C10_frame_property.1 [("a", Value.str "1")]
    ⟨setAttribute (fun _ => none) "x" "keep", some ["b"]⟩ "x" (by decide) (by decide)

theorem count_newKeysOf (fm : Frontmatter) (ak : String)
    (hp : prohibitedAttributeNames.contains ("data-" ++ ak) = false) :
    (newKeysOf fm).count ak = (fm.filter (fun kv => sanitizeKey kv.1 == ak)).length := by
  induction fm with
  | nil => simp [newKeysOf]
  | cons kv fm ih =>
    rw [newKeysOf_cons, List.filter_cons]
    by_cases he : sanitizeKey kv.1 = ak
    · have hpk : prohibitedAttributeNames.contains ("data-" ++ sanitizeKey kv.1) = false := by
        rw [he]; exact hp
      rw [if_neg (contains_ne_of_false hpk)]
      have hbeq : (sanitizeKey kv.1 == ak) = true := by
        rw [he]; exact beq_self_eq_true ak
      rw [if_pos hbeq, List.length_cons, List.count_cons, ih, hbeq]
      simp
    · have hbeq : (sanitizeKey kv.1 == ak) = false := beq_eq_false_iff_ne.mpr he
      by_cases hpk : prohibitedAttributeNames.contains ("data-" ++ sanitizeKey kv.1) = true
      · rw [if_pos hpk, ih, hbeq]
        simp
      · rw [if_neg hpk, List.count_cons, ih, hbeq]
        simp

theorem count_map_data (l : List String) (ak : String) :
    (l.map (fun k => "data-" ++ k)).count ("data-" ++ ak) = l.count ak := by
  induction l with
  | nil => rfl
  | cons x xs ih =>
    rw [List.map_cons, List.count_cons, List.count_cons, ih]
    by_cases hx : x = ak
    · subst hx
      rw [beq_self_eq_true, beq_self_eq_true]
    · have h1 : (x == ak) = false := beq_eq_false_iff_ne.mpr hx
      have h2 : (("data-" ++ x) == ("data-" ++ ak)) = false :=
        beq_eq_false_iff_ne.mpr (fun h => hx (data_prefix_inj h))
      rw [h1, h2]

theorem lastValue_of_filter (fm : Frontmatter) (ak : String)
    (l : List (String × Value)) (kvl : String × Value)
    (hf : fm.filter (fun kv => sanitizeKey kv.1 == ak) = l ++ [kvl]) :
    lastValue fm ("data-" ++ ak) = some (serializeValue kvl.2) := by
  induction fm generalizing l with
  | nil =>
    exfalso
    have : ([] : List (String × Value)).length = (l ++ [kvl]).length := by rw [← hf]; rfl
    simp at this
  | cons kv fm ih =>
    rw [List.filter_cons] at hf
    by_cases he : (sanitizeKey kv.1 == ak) = true
    · rw [if_pos he] at hf
      cases hrest : fm.filter (fun kv => sanitizeKey kv.1 == ak) with
      | nil =>
        have hkv : kv = kvl := by
          rw [hrest] at hf
          cases l with
          | nil => exact (List.cons.injEq _ _ _ _ ▸ hf).1
          | cons x l2 =>
            exfalso
            have hlen := congrArg List.length hf
            simp at hlen
        have hnone : lastValue fm ("data-" ++ ak) = none := by
          rw [lastValue_none_iff]
          intro kv' hkv' habs
          have : (sanitizeKey kv'.1 == ak) = true := by
            rw [beq_iff_eq]
            exact data_prefix_inj habs
          have : kv' ∈ fm.filter (fun kv => sanitizeKey kv.1 == ak) :=
            List.mem_filter.mpr ⟨hkv', this⟩
          rw [hrest] at this
          simp at this
        show lastValue (kv :: fm) ("data-" ++ ak) = _
        rw [lastValue]
        rw [hnone]
        rw [if_pos (by rw [congrArg (fun x => "data-" ++ x) (beq_iff_eq.mp he)]), hkv]
      | cons x l2 =>
        cases l with
        | nil =>
          exfalso
          rw [hrest] at hf
          have h2 := (List.cons.injEq _ _ _ _ ▸ hf).2
          have hlen := congrArg List.length h2
          simp at hlen
        | cons y l3 =>
          have h2 : fm.filter (fun kv => sanitizeKey kv.1 == ak) = l3 ++ [kvl] :=
            (List.cons.injEq _ _ _ _ ▸ hf).2
          have := ih l3 h2
          show lastValue (kv :: fm) ("data-" ++ ak) = _
          rw [lastValue, this]
    · rw [if_neg he] at hf
      have := ih l hf
      show lastValue (kv :: fm) ("data-" ++ ak) = _
      rw [lastValue, this]

/-- C9: when a snapshot contains two distinct keys sanitizing to the same
non-reserved attribute name, `applyAttributes` writes that attribute once
per colliding key (two `setAttribute` calls appear in the written-name
sequence), the final attribute value is the serialization of the later
key's value, and the shared sanitized key is recorded once per colliding
metadata key (count 2 in the applied-attribute record). -/
theorem C9_duplicate_key_collision (fm : Frontmatter) (ak : String)
    (kv1 kv2 : String × Value) (s : ElemState)
    (hp : prohibitedAttributeNames.contains ("data-" ++ ak) = false)
    (hf : fm.filter (fun kv => sanitizeKey kv.1 == ak) = [kv1, kv2])
    (hne : kv1.1 ≠ kv2.1) :
    (writtenNames fm).count ("data-" ++ ak) = 2 ∧
    (applyAttributesElem (some fm) s).attrs ("data-" ++ ak) =
      some (serializeValue kv2.2) ∧
    (applyAttributesElem (some fm) s).applied = some (newKeysOf fm) ∧
    (newKeysOf fm).count ak = 2 := by
  have hcount : (newKeysOf fm).count ak = 2 := by
    rw [count_newKeysOf fm ak hp, hf]
    rfl
  have hlv : lastValue fm ("data-" ++ ak) = some (serializeValue kv2.2) :=
    lastValue_of_filter fm ak [kv1] kv2 hf
  refine ⟨?_, ?_, ?_, hcount⟩
  · rw [writtenNames, count_map_data]
    exact hcount
  · rw [applyElem_attrs_val hp, hlv]
  · rw [applyElem_applied]
    have hne' : newKeysOf fm ≠ [] := by
      intro hz
      rw [hz] at hcount
      simp [List.count_nil] at hcount
    rw [if_neg hne']

/-- Witness for C9 at snapshot `{Tag!: "a", Tag?: "b"}`, both keys
sanitizing to `tag-`. -/
theorem C9_duplicate_key_collision_witness :
    (writtenNames [("Tag!", Value.str "a"), ("Tag?", Value.str "b")]).count "data-tag-" = 2 ∧
    (applyAttributesElem (some [("Tag!", Value.str "a"), ("Tag?", Value.str "b")])
        ⟨fun _ => none, none⟩).attrs "data-tag-" = some (serializeValue (Value.str "b")) ∧
    (applyAttributesElem (some [("Tag!", Value.str "a"), ("Tag?", Value.str "b")])
        ⟨fun _ => none, none⟩).applied =
      some (newKeysOf [("Tag!", Value.str "a"), ("Tag?", Value.str "b")]) ∧
    (newKeysOf [("Tag!", Value.str "a"), ("Tag?", Value.str "b")]).count "tag-" = 2 :=
  C9_duplicate_key_collision [("Tag!", Value.str "a"), ("Tag?", Value.str "b")] "tag-"
    ("Tag!", Value.str "a") ("Tag?", Value.str "b") ⟨fun _ => none, none⟩
    (by decide) rfl (by decide)

theorem applyFull_resolved (meta : String → Option Frontmatter) (p : String) (l : Leaf)
    (e : Nat) (w : World) (hce : l.containerEl = some e) :
    applyAttributes meta (some p) (some l) w =
      w.setElem e (applyAttributesElem (meta p) (w.elem e)) := by
  simp [applyAttributes, hce]

theorem handle_eq_filter (meta : String → Option Frontmatter) (leaves : List Leaf)
    (p : String) (w : World) :
    handleMetadataChange meta leaves p w =
      (leaves.filter (fun l => l.isMarkdown && (l.filePath == some p))).foldl
        (fun w l => applyAttributes meta (some p) (some l) w) w := by
  induction leaves generalizing w with
  | nil => rfl
  | cons l leaves ih =>
    simp only [handleMetadataChange, List.foldl_cons, List.filter_cons] at ih ⊢
    cases hmk : l.isMarkdown with
    | false =>
      simp only [hmk, Bool.false_eq_true, if_false, Bool.false_and]
      exact ih w
    | true =>
      cases hfp : l.filePath with
      | none =>
        simp only [hmk, if_true, hfp, Bool.true_and]
        have hbeq : ((none : Option String) == some p) = false := rfl
        simp only [hbeq, Bool.false_eq_true, if_false]
        exact ih w
      | some q =>
        by_cases hq : q = p
        · subst hq
          simp only [hmk, if_true, hfp, Bool.true_and]
          have hbeq : ((some q : Option String) == some q) = true := by
            rw [beq_iff_eq]
          simp only [hbeq, if_pos rfl, if_true]
          exact ih _
        · simp only [hmk, if_true, hfp, Bool.true_and]
          have hbeq : ((some q : Option String) == some p) = false :=
            beq_eq_false_iff_ne.mpr (fun h => hq (Option.some.injEq q p ▸ h))
          simp only [hbeq, Bool.false_eq_true, if_false, if_neg hq]
          exact ih w

/-- C8: `handleMetadataChange` applies attributes exactly to the markdown
leaves whose shown file has the changed file's path (a fold over that
filtered leaf list), and when the document is displayed in two such
views, both target elements end with the same applied-attribute record
and the same values at every system-written attribute name. -/
theorem C8_multiview_fanout :
    (∀ (meta : String → Option Frontmatter) (leaves : List Leaf) (p : String) (w : World),
      handleMetadataChange meta leaves p w =
        (leaves.filter (fun l => l.isMarkdown && (l.filePath == some p))).foldl
          (fun w l => applyAttributes meta (some p) (some l) w) w) ∧
    (∀ (meta : String → Option Frontmatter) (p : String) (fm : Frontmatter)
        (l1 l2 : Leaf) (e1 e2 : Nat) (w : World),
      meta p = some fm →
      l1.isMarkdown = true → l1.filePath = some p → l1.containerEl = some e1 →
      l2.isMarkdown = true → l2.filePath = some p → l2.containerEl = some e2 →
      ((handleMetadataChange meta [l1, l2] p w).applied e1 =
          (handleMetadataChange meta [l1, l2] p w).applied e2 ∧
        ∀ n ∈ writtenNames fm,
          (handleMetadataChange meta [l1, l2] p w).attrs e1 n =
            (handleMetadataChange meta [l1, l2] p w).attrs e2 n)) := by
  refine ⟨handle_eq_filter, ?_⟩
  intro meta p fm l1 l2 e1 e2 w hm hmk1 hfp1 hce1 hmk2 hfp2 hce2
  have hw : handleMetadataChange meta [l1, l2] p w =
      applyAttributes meta (some p) (some l2)
        (applyAttributes meta (some p) (some l1) w) := by
    simp only [handleMetadataChange, List.foldl_cons, List.foldl_nil, hmk1, hfp1, hmk2, hfp2,
      if_true, if_pos rfl]
  rw [hw, applyFull_resolved meta p l1 e1 w hce1,
    applyFull_resolved meta p l2 e2 _ hce2]
  by_cases he : e1 = e2
  · subst he
    exact ⟨rfl, fun n _ => rfl⟩
  constructor
  · rw [setElem_applied_self, setElem_applied_ne _ _ _ he, setElem_applied_self, hm,
      applyElem_applied, applyElem_applied]
  · intro n hn
    obtain ⟨hnc, kv, hkv, hdn⟩ := mem_writtenNames.mp hn
    have hlv : lastValue fm n ≠ none := by
      intro hnone
      exact (lastValue_none_iff fm n).mp hnone kv hkv hdn
    cases hv : lastValue fm n with
    | none => exact absurd hv hlv
    | some v =>
      have hval : ∀ s : ElemState, (applyAttributesElem (some fm) s).attrs n = some v :=
        fun s => by rw [applyElem_attrs_val hnc, hv]
      rw [setElem_attrs_self, setElem_attrs_ne _ _ _ he, setElem_attrs_self, hm,
        hval, hval]

/-- Witness for C8's two-view clause at two concrete leaves showing the
same file in elements 0 and 1. -/
theorem C8_multiview_fanout_witness :
    ((handleMetadataChange (fun _ => some [("a", Value.str "1")])
        [⟨true, some "f", some 0⟩, ⟨true, some "f", some 1⟩] "f"
        (World.mk (fun _ => fun _ => none) (fun _ => none))).applied 0 =
      (handleMetadataChange (fun _ => some [("a", Value.str "1")])
        [⟨true, some "f", some 0⟩, ⟨true, some "f", some 1⟩] "f"
        (World.mk (fun _ => fun _ => none) (fun _ => none))).applied 1) ∧
    (∀ n ∈ writtenNames [("a", Value.str "1")],
      (handleMetadataChange (fun _ => some [("a", Value.str "1")])
        [⟨true, some "f", some 0⟩, ⟨true, some "f", some 1⟩] "f"
        (World.mk (fun _ => fun _ => none) (fun _ => none))).attrs 0 n =
      (handleMetadataChange (fun _ => some [("a", Value.str "1")])
        [⟨true, some "f", some 0⟩, ⟨true, some "f", some 1⟩] "f"
        (World.mk (fun _ => fun _ => none) (fun _ => none))).attrs 1 n) :=
  C8_multiview_fanout.2 (fun _ => some [("a", Value.str "1")]) "f" [("a", Value.str "1")]
    ⟨true, some "f", some 0⟩ ⟨true, some "f", some 1⟩ 0 1
    (World.mk (fun _ => fun _ => none) (fun _ => none))
    rfl rfl rfl rfl rfl rfl rfl

theorem clearLoopG_fst (ks : List String) (a : AttrMap) (g : List String) :
    (ks.foldl clearLoopStepG (a, g)).1 = ks.foldl clearLoopStep a := by
  induction ks generalizing a g with
  | nil => rfl
  | cons k ks ih =>
    rw [List.foldl_cons, List.foldl_cons]
    by_cases hp : prohibitedAttributeNames.contains ("data-" ++ k) = true
    · simp only [clearLoopStepG, clearLoopStep, if_pos hp]
      exact ih a g
    · simp only [clearLoopStepG, clearLoopStep, if_neg hp]
      exact ih _ _

theorem clearG_fst (s : ElemState) (g : List String) :
    (clearAttributesG s g).1 = clearAttributes s := by
  cases hs : s.applied with
  | none => simp [clearAttributesG, clearAttributes, hs]
  | some ks =>
    simp only [clearAttributesG, clearAttributes, hs]
    rw [clearLoopG_fst]

theorem applyLoopG_fst (fm : Frontmatter) (a : AttrMap) (ks g : List String) :
    (fm.foldl applyLoopStepG ((a, ks), g)).1 = fm.foldl applyLoopStep (a, ks) := by
  induction fm generalizing a ks g with
  | nil => rfl
  | cons kv fm ih =>
    rw [List.foldl_cons, List.foldl_cons]
    by_cases hp : prohibitedAttributeNames.contains ("data-" ++ sanitizeKey kv.1) = true
    · simp only [applyLoopStepG, applyLoopStep, if_pos hp]
      exact ih a ks g
    · simp only [applyLoopStepG, applyLoopStep, if_neg hp]
      exact ih _ _ _

theorem applyG_fst (fm? : Option Frontmatter) (s : ElemState) (g : List String) :
    (applyAttributesElemG fm? s g).1 = applyAttributesElem fm? s := by
  cases fm? with
  | none =>
    simp only [applyAttributesElemG, applyAttributesElem]
    exact clearG_fst s g
  | some fm =>
    simp only [applyAttributesElemG, applyAttributesElem]
    rw [clearG_fst, applyLoopG_fst]

theorem runOp_fst (p : ElemState × List String) (op : SyncOp) :
    (runOp p op).1 = runPlainOp p.1 op := by
  cases op with
  | applyOp fm? => exact applyG_fst fm? p.1 p.2
  | clearOp => exact clearG_fst p.1 p.2

theorem runOps_fst (ops : List SyncOp) (p : ElemState × List String) :
    (runOps ops p).1 = runPlainOps ops p.1 := by
  induction ops generalizing p with
  | nil => rfl
  | cons op ops ih =>
    show (runOps ops (runOp p op)).1 = runPlainOps ops (runPlainOp p.1 op)
    rw [ih (runOp p op), runOp_fst]

theorem clearLoopG_ghost_mem (ks : List String) (a : AttrMap) (g : List String) (n : String) :
    n ∈ (ks.foldl clearLoopStepG (a, g)).2 ↔
      n ∈ g ∧ ∀ k ∈ ks, prohibitedAttributeNames.contains ("data-" ++ k) = false →
        n ≠ "data-" ++ k := by
  induction ks generalizing a g with
  | nil => simp
  | cons k ks ih =>
    rw [List.foldl_cons]
    by_cases hp : prohibitedAttributeNames.contains ("data-" ++ k) = true
    · simp only [clearLoopStepG, if_pos hp]
      rw [ih]
      constructor
      · rintro ⟨h1, h2⟩
        refine ⟨h1, fun k' hk' hp' => ?_⟩
        rcases List.mem_cons.mp hk' with hh | ht
        · subst hh
          rw [hp] at hp'
          exact absurd hp' (by simp)
        · exact h2 k' ht hp'
      · rintro ⟨h1, h2⟩
        exact ⟨h1, fun k' hk' hp' => h2 k' (List.mem_cons_of_mem _ hk') hp'⟩
    · have hp' : prohibitedAttributeNames.contains ("data-" ++ k) = false :=
        Bool.not_eq_true _ ▸ hp
      simp only [clearLoopStepG, if_neg hp]
      rw [ih]
      simp only [List.mem_filter, decide_eq_true_eq]
      constructor
      · rintro ⟨⟨h1, hne⟩, h2⟩
        refine ⟨h1, fun k' hk' hpk' => ?_⟩
        rcases List.mem_cons.mp hk' with hh | ht
        · subst hh
          exact hne
        · exact h2 k' ht hpk'
      · rintro ⟨h1, h2⟩
        exact ⟨⟨h1, h2 k (List.mem_cons_self k ks) hp'⟩,
          fun k' hk' hpk' => h2 k' (List.mem_cons_of_mem _ hk') hpk'⟩

theorem clearG_inv (s : ElemState) (g : List String)
    (hmem : ∀ n, n ∈ g ↔ ∃ k ∈ s.applied.getD [], n = "data-" ++ k)
    (hproh : ∀ k ∈ s.applied.getD [],
      prohibitedAttributeNames.contains ("data-" ++ k) = false) :
    (∀ n, ¬ n ∈ (clearAttributesG s g).2) ∧
      (clearAttributesG s g).1.applied = none := by
  cases hs : s.applied with
  | none =>
    rw [hs] at hmem
    simp only [clearAttributesG, hs]
    constructor
    · intro n hn
      obtain ⟨k, hk, _⟩ := (hmem n).mp hn
      simp at hk
    · trivial
  | some ks =>
    rw [hs] at hmem hproh
    simp only [clearAttributesG, hs]
    constructor
    · intro n hn
      obtain ⟨hg, hnot⟩ := (clearLoopG_ghost_mem ks s.attrs g n).mp hn
      obtain ⟨k, hk, hkn⟩ := (hmem n).mp hg
      simp only [Option.getD_some] at hk hkn
      exact hnot k hk (hproh k hk) hkn
    · trivial

theorem applyLoopG_ghost (fm : Frontmatter) (a : AttrMap) (ks g : List String)
    (hmem : ∀ n, n ∈ g ↔ ∃ k ∈ ks, n = "data-" ++ k)
    (hks : ∀ k ∈ ks, prohibitedAttributeNames.contains ("data-" ++ k) = false) :
    (∀ n, n ∈ (fm.foldl applyLoopStepG ((a, ks), g)).2 ↔
      ∃ k ∈ (fm.foldl applyLoopStepG ((a, ks), g)).1.2, n = "data-" ++ k) ∧
    (∀ k ∈ (fm.foldl applyLoopStepG ((a, ks), g)).1.2,
      prohibitedAttributeNames.contains ("data-" ++ k) = false) := by
  induction fm generalizing a ks g with
  | nil => exact ⟨hmem, hks⟩
  | cons kv fm ih =>
    rw [List.foldl_cons]
    by_cases hp : prohibitedAttributeNames.contains ("data-" ++ sanitizeKey kv.1) = true
    · simp only [applyLoopStepG, if_pos hp]
      exact ih a ks g hmem hks
    · have hp' : prohibitedAttributeNames.contains ("data-" ++ sanitizeKey kv.1) = false :=
        Bool.not_eq_true _ ▸ hp
      simp only [applyLoopStepG, if_neg hp]
      apply ih
      · intro n
        rw [List.mem_insert_iff]
        constructor
        · rintro (hh | hg)
          · exact ⟨sanitizeKey kv.1,
              List.mem_append_right _ (List.mem_singleton.mpr rfl), hh⟩
          · obtain ⟨k, hk, hkn⟩ := (hmem n).mp hg
            exact ⟨k, List.mem_append_left _ hk, hkn⟩
        · rintro ⟨k, hk, hkn⟩
          rcases List.mem_append.mp hk with h1 | h2
          · exact Or.inr ((hmem n).mpr ⟨k, h1, hkn⟩)
          · rw [List.mem_singleton] at h2
            subst h2
            exact Or.inl hkn
      · intro k hk
        rcases List.mem_append.mp hk with h1 | h2
        · exact hks k h1
        · rw [List.mem_singleton] at h2
          subst h2
          exact hp'

theorem applyG_snd (fm : Frontmatter) (s : ElemState) (g : List String) :
    (applyAttributesElemG (some fm) s g).2 =
      (fm.foldl applyLoopStepG (((clearAttributesG s g).1.attrs, []),
        (clearAttributesG s g).2)).2 := rfl

theorem applyG_applied (fm : Frontmatter) (s : ElemState) (g : List String) :
    (applyAttributesElemG (some fm) s g).1.applied =
      (if (fm.foldl applyLoopStepG (((clearAttributesG s g).1.attrs, []),
          (clearAttributesG s g).2)).1.2.length > 0
       then some (fm.foldl applyLoopStepG (((clearAttributesG s g).1.attrs, []),
          (clearAttributesG s g).2)).1.2
       else (clearAttributesG s g).1.applied) := rfl

theorem applyG_inv (fm? : Option Frontmatter) (s : ElemState) (g : List String)
    (hmem : ∀ n, n ∈ g ↔ ∃ k ∈ s.applied.getD [], n = "data-" ++ k)
    (hproh : ∀ k ∈ s.applied.getD [],
      prohibitedAttributeNames.contains ("data-" ++ k) = false) :
    (∀ n, n ∈ (applyAttributesElemG fm? s g).2 ↔
      ∃ k ∈ (applyAttributesElemG fm? s g).1.applied.getD [], n = "data-" ++ k) ∧
    (∀ k ∈ (applyAttributesElemG fm? s g).1.applied.getD [],
      prohibitedAttributeNames.contains ("data-" ++ k) = false) ∧
    (applyAttributesElemG fm? s g).1.applied ≠ some [] := by
  cases fm? with
  | none =>
    obtain ⟨hempty, happ⟩ := clearG_inv s g hmem hproh
    have heq : applyAttributesElemG none s g = clearAttributesG s g := rfl
    rw [heq, happ]
    refine ⟨?_, ?_, by simp⟩
    · intro n
      constructor
      · intro h
        exact absurd h (hempty n)
      · rintro ⟨k, hk, _⟩
        simp at hk
    · intro k hk
      simp at hk
  | some fm =>
    obtain ⟨hempty, happ⟩ := clearG_inv s g hmem hproh
    obtain ⟨hmem', hks'⟩ := applyLoopG_ghost fm (clearAttributesG s g).1.attrs []
      (clearAttributesG s g).2
      (fun n => ⟨fun h => absurd h (hempty n), fun h => by simp at h⟩)
      (fun k hk => by simp at hk)
    rw [applyG_snd, applyG_applied]
    by_cases hlen :
        (fm.foldl applyLoopStepG (((clearAttributesG s g).1.attrs, []),
          (clearAttributesG s g).2)).1.2 = []
    · rw [hlen] at hmem' ⊢
      rw [happ]
      simp only [List.length_nil, gt_iff_lt, Nat.lt_irrefl, if_false]
      refine ⟨?_, ?_, by simp⟩
      · intro n
        constructor
        · intro h
          obtain ⟨k, hk, _⟩ := (hmem' n).mp h
          simp at hk
        · rintro ⟨k, hk, _⟩
          simp at hk
      · intro k hk
        simp at hk
    · rw [if_pos (List.length_pos.mpr hlen)]
      refine ⟨?_, ?_, ?_⟩
      · intro n
        rw [Option.getD_some]
        exact hmem' n
      · intro k hk
        rw [Option.getD_some] at hk
        exact hks' k hk
      · intro h
        exact hlen (Option.some.inj h)

theorem runOp_inv (p : ElemState × List String) (op : SyncOp)
    (hmem : ∀ n, n ∈ p.2 ↔ ∃ k ∈ p.1.applied.getD [], n = "data-" ++ k)
    (hproh : ∀ k ∈ p.1.applied.getD [],
      prohibitedAttributeNames.contains ("data-" ++ k) = false) :
    (∀ n, n ∈ (runOp p op).2 ↔
      ∃ k ∈ (runOp p op).1.applied.getD [], n = "data-" ++ k) ∧
    (∀ k ∈ (runOp p op).1.applied.getD [],
      prohibitedAttributeNames.contains ("data-" ++ k) = false) ∧
    (runOp p op).1.applied ≠ some [] := by
  cases op with
  | applyOp fm? => exact applyG_inv fm? p.1 p.2 hmem hproh
  | clearOp =>
    obtain ⟨hempty, happ⟩ := clearG_inv p.1 p.2 hmem hproh
    have hro : runOp p SyncOp.clearOp = clearAttributesG p.1 p.2 := rfl
    rw [hro, happ]
    refine ⟨?_, ?_, by simp⟩
    · intro n
      constructor
      · intro h
        exact absurd h (hempty n)
      · rintro ⟨k, hk, _⟩
        simp at hk
    · intro k hk
      simp at hk

theorem runOps_inv (ops : List SyncOp) (p : ElemState × List String)
    (hmem : ∀ n, n ∈ p.2 ↔ ∃ k ∈ p.1.applied.getD [], n = "data-" ++ k)
    (hproh : ∀ k ∈ p.1.applied.getD [],
      prohibitedAttributeNames.contains ("data-" ++ k) = false)
    (hnil : p.1.applied ≠ some []) :
    (∀ n, n ∈ (runOps ops p).2 ↔
      ∃ k ∈ (runOps ops p).1.applied.getD [], n = "data-" ++ k) ∧
    (∀ k ∈ (runOps ops p).1.applied.getD [],
      prohibitedAttributeNames.contains ("data-" ++ k) = false) ∧
    (runOps ops p).1.applied ≠ some [] := by
  induction ops generalizing p with
  | nil => exact ⟨hmem, hproh, hnil⟩
  | cons op ops ih =>
    obtain ⟨h1, h2, h3⟩ := runOp_inv p op hmem hproh
    exact ih (runOp p op) h1 h2 h3

/-- C1: starting from an untracked element, after any sequence of
`applyAttributes` and `clearAttributes` calls the set of `data-*`
attribute names this system has written onto the element and not since
removed (the ghost set carried by the instrumented operations) equals
exactly the element's current applied-attribute record, and no empty
record is ever kept; the instrumented run's element state is the run of
the real `applyAttributesElem` / `clearAttributes`. -/
theorem C1_applied_record_invariant (ops : List SyncOp) (s0 : ElemState)
    (h : s0.applied = none) :
    (∀ n, n ∈ (runOps ops (s0, [])).2 ↔
      ∃ k ∈ (runOps ops (s0, [])).1.applied.getD [], n = "data-" ++ k) ∧
    (runOps ops (s0, [])).1.applied ≠ some [] ∧
    (runOps ops (s0, [])).1 = runPlainOps ops s0 := by
  obtain ⟨h1, h2, h3⟩ := runOps_inv ops (s0, [])
    (fun n => by simp [h])
    (fun k hk => by simp [h] at hk)
    (by simp [h])
  exact ⟨h1, h3, runOps_fst ops (s0, [])⟩

/-- Witness for C1 on the call sequence "apply `{a: "1"}`, then clear"
starting from a fresh element. -/
theorem C1_applied_record_invariant_witness :
    (∀ n, n ∈ (runOps [SyncOp.applyOp (some [("a", Value.str "1")]), SyncOp.clearOp]
        (⟨fun _ => none, none⟩, [])).2 ↔
      ∃ k ∈ (runOps [SyncOp.applyOp (some [("a", Value.str "1")]), SyncOp.clearOp]
        (⟨fun _ => none, none⟩, [])).1.applied.getD [], n = "data-" ++ k) ∧
    (runOps [SyncOp.applyOp (some [("a", Value.str "1")]), SyncOp.clearOp]
        (⟨fun _ => none, none⟩, [])).1.applied ≠ some [] ∧
    (runOps [SyncOp.applyOp (some [("a", Value.str "1")]), SyncOp.clearOp]
        (⟨fun _ => none, none⟩, [])).1 =
      runPlainOps [SyncOp.applyOp (some [("a", Value.str "1")]), SyncOp.clearOp]
        ⟨fun _ => none, none⟩ :=
  C1_applied_record_invariant [SyncOp.applyOp (some [("a", Value.str "1")]), SyncOp.clearOp]
    ⟨fun _ => none, none⟩ rfl
